import Mathlib

/-!
# Verification of the in-memory semantic retrieval core of `adr-context`

This file is a shallow embedding, in Lean 4, of the retrieval core found in
`plugins/adr-context/skills/adr-registry/SKILL.md` (the embedded MCP server
source): the fallback embedder `simpleEmbedding`, the `VectorStore` class
(`addDocument`, `search`, `cosineSimilarity`, `clear`), the embedding
dispatcher `getEmbedding`, the answer synthesiser `generateAnswer`, and the
lazy indexing guard `ensureIndexed`.

Modelling conventions:
* JavaScript numbers are modelled as real numbers (`ℝ`).  All arithmetic the
  program performs on them (small-integer hashing, sums of products, square
  roots, division) is exact in `ℝ` except for rounding, which we idealise away;
  the claims under consideration are stated up to that idealisation.
* A JavaScript arithmetic result that is not a finite number (`NaN` or
  `±Infinity`) is modelled by `Option ℝ` with `none` standing for the
  non-finite value.  Division is the only operation in this code that can
  produce one; see `jsDiv`.
* Strings are modelled by Lean `String`s viewed as their character lists.
  `String.prototype.toLowerCase` is modelled by `Char.toLower`, which agrees
  with it on ASCII (all repository inputs relevant to the claims are ASCII);
  `charCodeAt` is modelled by `Char.toNat`, which agrees with it on the
  Basic Multilingual Plane.
* The documents stored in a `VectorStore` are free-form JS objects; they are
  modelled by an opaque type parameter `α`.
* `Array.prototype.sort` with the comparator `(a, b) => b.score - a.score` is,
  per ECMA-262 (ES2019 and later), a *stable* sort whenever the comparator is
  consistent, i.e. whenever no score is `NaN`; in that case the output is the
  unique stable descending reordering, which we realise by an insertion sort.
  When some score is `NaN` the comparator is inconsistent and ECMA-262 leaves
  the resulting order implementation-defined, so the model returns `none`
  (no particular result list is guaranteed by the language).
-/

namespace AdrContext

/-! ## JavaScript division

`jsDiv x y` models the JS expression `x / y` on finite operands: `none` when
the result is not a finite number (for `y = 0` JS yields `NaN` if `x = 0` and
`±Infinity` otherwise), `some (x / y)` otherwise. -/

noncomputable def jsDiv (x y : ℝ) : Option ℝ :=
  if y = 0 then none else some (x / y)

/-! ## Fallback embedder (`simpleEmbedding`)

Source (SKILL.md, "Simple fallback embedding (word frequency based)"):
```js
function simpleEmbedding(text, dimensions = 256) {
  const words = text.toLowerCase().split(/\W+/).filter((w) => w.length > 2);
  const embedding = new Array(dimensions).fill(0);
  for (const word of words) {
    let hash = 0;
    for (let i = 0; i < word.length; i++) {
      hash = (hash * 31 + word.charCodeAt(i)) % dimensions;
    }
    embedding[hash] += 1;
  }
  const norm = Math.sqrt(embedding.reduce((sum, v) => sum + v * v, 0)) || 1;
  return embedding.map((v) => v / norm);
}
```
-/

/-- A regex word character (`\w` = `[A-Za-z0-9_]`); `\W` is its complement. -/
def isWordChar (c : Char) : Bool :=
  (('a' ≤ c && c ≤ 'z') || ('A' ≤ c && c ≤ 'Z') || ('0' ≤ c && c ≤ '9') || c = '_')

/-- Model of `text.toLowerCase().split(/\W+/).filter((w) => w.length > 2)`.

`String.prototype.split` with separator `/\W+/` cuts the string at every
maximal run of non-word characters, producing possibly-empty fragments at the
boundaries; `List.splitOnP` cuts at every single non-word character, producing
an extra empty fragment inside each separator run.  The two differ only in
empty fragments (and fragments are never longer under `splitOnP`), so after
the `length > 2` filter the results coincide. -/
def tokenize (text : String) : List String :=
  (((text.data.map Char.toLower).splitOnP (fun c => !(isWordChar c))).map
      (fun l => String.mk l)).filter (fun w => w.length > 2)

/-- The rolling hash `hash = (hash * 31 + word.charCodeAt(i)) % dimensions`
folded over the characters of `word`, starting from `0`.  All intermediate
values stay far below `2^53`, so JS computes this exactly. -/
def wordHash (word : String) (dimensions : ℕ) : ℕ :=
  word.data.foldl (fun hash c => (hash * 31 + c.toNat) % dimensions) 0

/-- Model of `embedding[hash] += 1` on a counts array (out-of-range writes cannot occur,
see the hash-range theorem; `List.set` is a no-op out of range). -/
def bump (e : List ℕ) (i : ℕ) : List ℕ :=
  e.set i (e.getD i 0 + 1)

/-- The integer counts array built by the `for (const word of words)` loop of
`simpleEmbedding`, starting from `new Array(dimensions).fill(0)`. -/
def rawCounts (text : String) (dimensions : ℕ) : List ℕ :=
  (tokenize text).foldl (fun e w => bump e (wordHash w dimensions)) (List.replicate dimensions 0)

/-- Model of `list.reduce((sum, v) => sum + v * v, 0)` — the sum of squares, as the
left fold the source writes. -/
def sumSq (v : List ℝ) : ℝ :=
  v.foldl (fun sum x => sum + x * x) 0

/-- Model of `Math.sqrt(...) || 1`: the `||` falls through to `1` exactly when the
square root is falsy, i.e. `0` (it is never `NaN` on the non-negative sums of
squares it is applied to). -/
noncomputable def jsNormOr1 (s : ℝ) : ℝ :=
  if Real.sqrt s = 0 then 1 else Real.sqrt s

/-- The fallback embedder: counts vector, then division of every component by
`Math.sqrt(sum of squares) || 1`. -/
noncomputable def simpleEmbedding (text : String) (dimensions : ℕ := 256) : List ℝ :=
  let embedding : List ℝ := (rawCounts text dimensions).map (fun n : ℕ => (n : ℝ))
  let norm := jsNormOr1 (sumSq embedding)
  embedding.map (fun v => v / norm)

/-! ## Embedding dispatcher (`getEmbedding`)

Source:
```js
async function getEmbedding(text) {
  if (!openai) {
    return simpleEmbedding(text);
  }
  try {
    const response = await openai.embeddings.create({
      model: "text-embedding-3-small",
      input: text.slice(0, 8000),
    });
    return response.data[0].embedding;
  } catch (error) {
    console.error("Embedding error:", error.message);
    return simpleEmbedding(text);
  }
}
```
The external provider is a collaborator; it is modelled as an optional
function from the (truncated) input text to either a vector or a thrown
error message. -/

/-- An external embedding provider: given the text actually submitted, either
returns a vector (`Except.ok`) or throws (`Except.error`). -/
def EmbeddingProvider : Type := String → Except String (List ℝ)

/-- Model of `getEmbedding`, parameterised by the optional configured provider
(`openai` is `null` iff the parameter is `none`).  Note the provider receives
`text.slice(0, 8000)` while the fallback receives the untruncated text,
exactly as in the source. -/
noncomputable def getEmbedding (openai : Option EmbeddingProvider) (text : String) : List ℝ :=
  match openai with
  | none => simpleEmbedding text
  | some provider =>
    match provider (String.mk (text.data.take 8000)) with
    | Except.ok v => v
    | Except.error _ => simpleEmbedding text

/-! ## Answer synthesiser (`generateAnswer`) -/

/-- The record `{ answer, context }` returned by `generateAnswer`. -/
structure AnswerResult where
  answer : String
  context : String
deriving Repr, DecidableEq

/-- An external chat-completion provider: from (question, context) to either
the synthesised message content or a thrown error message. -/
def ChatProvider : Type := String → String → Except String String

/-- Model of `generateAnswer(question, context)`, parameterised by the optional chat
provider.  The literal strings are those of the source (`\x27` is the ASCII
apostrophe). -/
def generateAnswer (openai : Option ChatProvider) (question context : String) : AnswerResult :=
  match openai with
  | none =>
    { answer := "AI synthesis unavailable (no OPENAI_API_KEY). Here\x27s the relevant context:"
      context := context }
  | some provider =>
    match provider question context with
    | Except.ok content => { answer := content, context := context }
    | Except.error msg =>
      { answer := "AI error: " ++ msg ++ ". Here\x27s the relevant context:"
        context := context }

/-! ## Vector store

Source:
```js
class VectorStore {
  constructor() { this.documents = []; this.embeddings = []; }
  async addDocument(doc, embedding) {
    this.documents.push(doc);
    this.embeddings.push(embedding);
  }
  async search(queryEmbedding, topK = 5) {
    if (this.embeddings.length === 0) return [];
    const similarities = this.embeddings.map((emb, idx) => ({
      index: idx,
      score: this.cosineSimilarity(queryEmbedding, emb),
    }));
    similarities.sort((a, b) => b.score - a.score);
    return similarities.slice(0, topK).map((s) => ({
      document: this.documents[s.index],
      score: s.score,
    }));
  }
  cosineSimilarity(a, b) {
    let dotProduct = 0; let normA = 0; let normB = 0;
    for (let i = 0; i < a.length; i++) {
      dotProduct += a[i] * b[i];
      normA += a[i] * a[i];
      normB += b[i] * b[i];
    }
    return dotProduct / (Math.sqrt(normA) * Math.sqrt(normB));
  }
  clear() { this.documents = []; this.embeddings = []; }
}
```
-/

/-- A `VectorStore` state: the two parallel arrays. -/
structure VectorStore (α : Type) where
  documents : List α
  embeddings : List (List ℝ)

/-- The freshly constructed store. -/
def VectorStore.empty (α : Type) : VectorStore α := ⟨[], []⟩

/-- Model of `addDocument(doc, embedding)`: one logical operation pushing onto both
parallel arrays. -/
def VectorStore.addDocument (st : VectorStore α) (doc : α) (embedding : List ℝ) :
    VectorStore α :=
  { documents := st.documents ++ [doc], embeddings := st.embeddings ++ [embedding] }

/-- Model of `clear()`. -/
def VectorStore.clear (st : VectorStore α) : VectorStore α :=
  { st with documents := [], embeddings := [] }

/-- Model of `cosineSimilarity(a, b)`.  The loop runs over the indices of `a`; when `b`
is shorter, `b[i]` is `undefined` and every accumulator becomes `NaN`
(modelled `none`).  Otherwise the loop computes `dotProduct` over the first
`a.length` components, `normA` over `a` and `normB` over the first `a.length`
components of `b`, and divides.  The denominator is `0` exactly when `a` or
the used prefix of `b` is the zero vector, in which case the numerator is `0`
as well, so the `none` produced by `jsDiv` is always JS `NaN` here. -/
noncomputable def VectorStore.cosineSimilarity (a b : List ℝ) : Option ℝ :=
  if a.length ≤ b.length then
    let dotProduct := (List.zipWith (fun x y => x * y) a b).sum
    let normA := sumSq a
    let normB := sumSq (b.take a.length)
    jsDiv dotProduct (Real.sqrt normA * Real.sqrt normB)
  else none

/-- Insertion into a list sorted by strictly descending score-first order:
the new element goes after every element of strictly greater score and before
the first element of smaller-or-equal score.  This realises the unique stable
descending sort mandated by ECMA-262 for the comparator
`(a, b) => b.score - a.score` on `NaN`-free scores. -/
noncomputable def insertDesc (x : ℕ × ℝ) : List (ℕ × ℝ) → List (ℕ × ℝ)
  | [] => [x]
  | y :: ys => if y.2 > x.2 then y :: insertDesc x ys else x :: y :: ys

/-- Stable descending sort by score (insertion sort). -/
noncomputable def sortDesc (l : List (ℕ × ℝ)) : List (ℕ × ℝ) :=
  l.foldr insertDesc []

/-- Model of `search(queryEmbedding, topK = 5)`.  Result entries are
`{document, score}` pairs.  When every similarity is a finite number the sort
is the stable descending sort; when some similarity is `NaN` the ECMA-262
sort order is implementation-defined and no particular result is guaranteed,
which the model expresses by returning `none`.  `this.documents[s.index]` is
modelled with `getD` and a default (JS `undefined`) that is never reached
when the parallel-arrays invariant holds. -/
noncomputable def VectorStore.search [Inhabited α] (st : VectorStore α)
    (queryEmbedding : List ℝ) (topK : ℕ := 5) : Option (List (α × ℝ)) :=
  if st.embeddings.length = 0 then some [] else
    match (st.embeddings.map (VectorStore.cosineSimilarity queryEmbedding)).mapM id with
    | none => none
    | some scores =>
      let sorted := sortDesc scores.enum
      some ((sorted.take topK).map (fun s => (st.documents.getD s.1 default, s.2)))

/-- The ranking `search` realises on `NaN`-free scores: the stored indices
sorted by descending score (stable, so ties keep ascending index order) and
cut to the first `topK`. -/
noncomputable def rankedIdxs (scores : List ℝ) (topK : ℕ) : List ℕ :=
  ((sortDesc scores.enum).take topK).map Prod.fst

/-! ## Lazy indexing (`ensureIndexed`)

Source:
```js
let isIndexed = false;
async function ensureIndexed() {
  if (!isIndexed) {
    await indexServices();
    await indexDocs();
    isIndexed = true;
  }
}
server.setRequestHandler(CallToolRequestSchema, async (request) => {
  ...
  try {
    await ensureIndexed();
    switch (name) { ... }
  } catch ...
});
```
`indexServices` appends one document per enumerated service to
`serviceStore`, `indexDocs` one per endpoint/schema/readme to `docsStore`;
which documents those are depends only on the external world (GitHub, the
spec endpoint, the embedder), modelled here as two fixed lists of
(document, embedding) pairs. -/

/-- The mutable module-level state of the server: the two global stores and
the `isIndexed` flag. -/
structure ServerState (α : Type) where
  serviceStore : VectorStore α
  docsStore : VectorStore α
  isIndexed : Bool

/-- Model of `indexServices()`: appends each enumerated (doc, embedding) pair to the
global `serviceStore` via `addDocument`. -/
def indexServices (items : List (α × List ℝ)) (st : ServerState α) : ServerState α :=
  { st with serviceStore :=
      items.foldl (fun s p => s.addDocument p.1 p.2) st.serviceStore }

/-- Model of `indexDocs()`: appends each enumerated (doc, embedding) pair to the global
`docsStore` via `addDocument`. -/
def indexDocs (items : List (α × List ℝ)) (st : ServerState α) : ServerState α :=
  { st with docsStore :=
      items.foldl (fun s p => s.addDocument p.1 p.2) st.docsStore }

/-- Model of `ensureIndexed()`: guarded by the `isIndexed` flag; on the first run it
performs `indexServices` then `indexDocs` and sets the flag. -/
def ensureIndexed (svcItems docItems : List (α × List ℝ)) (st : ServerState α) :
    ServerState α :=
  if st.isIndexed then st
  else
    let st1 := indexServices svcItems st
    let st2 := indexDocs docItems st1
    { st2 with isIndexed := true }

/-- The state effect of the `CallToolRequestSchema` handler: every tool call
first awaits `ensureIndexed` and then only reads the stores (the `switch`
performs searches but no mutation), so its state transition is exactly
`ensureIndexed`. -/
def handleToolCall (svcItems docItems : List (α × List ℝ)) (st : ServerState α) :
    ServerState α :=
  ensureIndexed svcItems docItems st

/-! ## Spec-side formulations

Independent renderings of the quantities named by the specification, used to
state refinement claims against the source-derived definitions above. -/

/-- The Euclidean norm `||v||` as the specification writes it. -/
noncomputable def specNorm (v : List ℝ) : ℝ :=
  Real.sqrt ((v.map (fun x => x ^ 2)).sum)

/-- The dot product `dot(a, b)` as the specification writes it. -/
def specDot (a b : List ℝ) : ℝ :=
  (List.zipWith (fun x y => x * y) a b).sum

/-! ## Helper lemmas -/

theorem foldl_add_eq_sum (f : α → ℝ) (l : List α) (a : ℝ) :
    l.foldl (fun s x => s + f x) a = a + (l.map f).sum := by
  induction l generalizing a with
  | nil => simp
  | cons x xs ih => simp [ih, add_assoc]

theorem sumSq_eq_sum_sq (v : List ℝ) : sumSq v = (v.map (fun x => x ^ 2)).sum := by
  have h := foldl_add_eq_sum (fun x => x * x) v 0
  simpa [sumSq, pow_two] using h

theorem sumSq_nonneg (v : List ℝ) : 0 ≤ sumSq v := by
  rw [sumSq_eq_sum_sq]
  exact List.sum_nonneg (by
    intro x hx
    obtain ⟨y, _, rfl⟩ := List.mem_map.mp hx
    positivity)

theorem sumSq_eq_zero_iff (v : List ℝ) : sumSq v = 0 ↔ ∀ x ∈ v, x = 0 := by
  rw [sumSq_eq_sum_sq]
  induction v with
  | nil => simp
  | cons x xs ih =>
    simp only [List.map_cons, List.sum_cons, List.mem_cons, forall_eq_or_imp]
    have h1 : (0 : ℝ) ≤ x ^ 2 := by positivity
    have h2 : 0 ≤ (xs.map (fun x => x ^ 2)).sum := by
      apply List.sum_nonneg
      intro y hy
      obtain ⟨z, _, rfl⟩ := List.mem_map.mp hy
      positivity
    constructor
    · intro h
      have hx : x ^ 2 = 0 := by linarith
      have hxs : (xs.map (fun x => x ^ 2)).sum = 0 := by linarith
      exact ⟨pow_eq_zero_iff two_ne_zero |>.mp hx, ih.mp hxs⟩
    · rintro ⟨rfl, hxs⟩
      rw [ih.mpr hxs]
      ring

theorem sqrt_sumSq_eq_specNorm (v : List ℝ) : Real.sqrt (sumSq v) = specNorm v := by
  rw [specNorm, sumSq_eq_sum_sq]

theorem specDot_eq_zero_left (a b : List ℝ) (h : ∀ x ∈ a, x = 0) : specDot a b = 0 := by
  rw [specDot]
  induction a generalizing b with
  | nil => simp
  | cons x xs ih =>
    cases b with
    | nil => simp
    | cons y ys =>
      simp only [List.zipWith_cons_cons, List.sum_cons]
      rw [h x (by simp), ih ys (fun z hz => h z (by simp [hz]))]
      ring

theorem specDot_eq_zero_right (a b : List ℝ) (h : ∀ y ∈ b, y = 0) : specDot a b = 0 := by
  rw [specDot]
  induction a generalizing b with
  | nil => simp
  | cons x xs ih =>
    cases b with
    | nil => simp
    | cons y ys =>
      simp only [List.zipWith_cons_cons, List.sum_cons]
      rw [h y (by simp), ih ys (fun z hz => h z (by simp [hz]))]
      ring

/-! ## Claim C2: cosine similarity is the unguarded quotient -/

/-- C2.  For equal-length vectors `a` and `b`, `cosineSimilarity(a, b)` is
exactly `dot(a,b) / (||a|| * ||b||)` with no guard on the denominator: the
result is `some` of that quotient whenever the denominator is non-zero, and
the JS value `NaN` (modelled `none`) whenever either norm is exactly `0` —
never `0` and never a thrown error.  The final conjunct shows that in the
degenerate case the numerator is also `0`, so the non-finite JS value is
specifically `0/0 = NaN` and not `±Infinity`. -/
theorem cosineSimilarity_unguarded_quotient (a b : List ℝ) (hlen : a.length = b.length) :
    (VectorStore.cosineSimilarity a b =
        if specNorm a * specNorm b = 0 then none
        else some (specDot a b / (specNorm a * specNorm b)))
      ∧ (specNorm a = 0 ∨ specNorm b = 0 → VectorStore.cosineSimilarity a b = none)
      ∧ (specNorm a * specNorm b = 0 → specDot a b = 0) := by
  have htake : b.take a.length = b := by
    rw [hlen]
    exact List.take_length b
  have hcos : VectorStore.cosineSimilarity a b =
      jsDiv (specDot a b) (specNorm a * specNorm b) := by
    rw [VectorStore.cosineSimilarity, if_pos (le_of_eq hlen), htake]
    simp only [sqrt_sumSq_eq_specNorm]
    rfl
  have hzero : ∀ v : List ℝ, specNorm v = 0 → ∀ x ∈ v, x = 0 := by
    intro v hv
    have hle : sumSq v ≤ 0 :=
      Real.sqrt_eq_zero'.mp (by rwa [sqrt_sumSq_eq_specNorm])
    exact (sumSq_eq_zero_iff v).mp (le_antisymm hle (sumSq_nonneg v))
  have hnum : specNorm a * specNorm b = 0 → specDot a b = 0 := by
    intro h0
    rcases mul_eq_zero.mp h0 with h | h
    · exact specDot_eq_zero_left a b (hzero a h)
    · exact specDot_eq_zero_right a b (hzero b h)
  refine ⟨?_, ?_, hnum⟩
  · rw [hcos, jsDiv]
  · intro h
    rw [hcos, jsDiv, if_pos]
    rcases h with h | h <;> simp [h]

/-- Witness for C2 at concrete inputs: a pair of equal-length vectors in
general position, and a pair whose first member is the zero vector. -/
theorem cosineSimilarity_unguarded_quotient_witness :
    (VectorStore.cosineSimilarity [0, 3] [4, 0] =
        if specNorm [0, 3] * specNorm [4, 0] = 0 then none
        else some (specDot [0, 3] [4, 0] / (specNorm [0, 3] * specNorm [4, 0])))
      ∧ (specNorm [(0 : ℝ), 0] = 0 ∨ specNorm [1, 1] = 0 →
          VectorStore.cosineSimilarity [(0 : ℝ), 0] [1, 1] = none) :=
  ⟨(cosineSimilarity_unguarded_quotient [0, 3] [4, 0] rfl).1,
   (cosineSimilarity_unguarded_quotient [0, 0] [1, 1] rfl).2.1⟩

/-! ## Claim C9: searching an empty store -/

/-- C9.  For every query embedding and every `topK`, `search` on a store
holding zero documents returns the empty result list (`some []`, in
particular a well-defined value, not an error). -/
theorem search_empty_store {α : Type} [Inhabited α] (q : List ℝ) (k : ℕ) :
    (VectorStore.empty α).search q k = some [] := by
  rfl

/-! ## Claim C4: provider failure falls back to `simpleEmbedding` -/

/-- C4.  `getEmbedding` returns exactly the fallback embedder output
`simpleEmbedding(text)` for the same (untruncated) text both when no provider
is configured and when the configured provider throws; the failure is never
propagated (the function is total and its error branch produces the fallback
vector, not an error). -/
theorem getEmbedding_fallback (openai : Option EmbeddingProvider) (text : String) :
    (openai = none → getEmbedding openai text = simpleEmbedding text)
      ∧ (∀ (p : EmbeddingProvider) (msg : String),
          openai = some p → p (String.mk (text.data.take 8000)) = Except.error msg →
          getEmbedding openai text = simpleEmbedding text) := by
  constructor
  · rintro rfl
    rfl
  · rintro p msg rfl herr
    simp [getEmbedding, herr]

/-- Witness for C4: a provider that always throws still yields the fallback
vector for the same text. -/
theorem getEmbedding_fallback_witness :
    getEmbedding (some (fun _ => Except.error "network failure")) "webhook events" =
      simpleEmbedding "webhook events" :=
  (getEmbedding_fallback (some (fun _ => Except.error "network failure")) "webhook events").2
    (fun _ => Except.error "network failure") "network failure" rfl rfl

/-! ## Claim C8: `generateAnswer` always returns the raw context -/

/-- C8.  For every question and context, `generateAnswer` returns a record
whose `context` field is the given raw context in all three cases — no
provider configured (with the explicit synthesis-unavailable note), provider
success, and provider error (with a diagnostic answer) — and it never throws
(it is a total function into `AnswerResult`). -/
theorem generateAnswer_preserves_context (openai : Option ChatProvider)
    (question context : String) :
    (generateAnswer openai question context).context = context
      ∧ (openai = none → (generateAnswer openai question context).answer =
          "AI synthesis unavailable (no OPENAI_API_KEY). Here\x27s the relevant context:")
      ∧ (∀ (p : ChatProvider) (content : String),
          openai = some p → p question context = Except.ok content →
          (generateAnswer openai question context).answer = content)
      ∧ (∀ (p : ChatProvider) (msg : String),
          openai = some p → p question context = Except.error msg →
          (generateAnswer openai question context).answer =
            "AI error: " ++ msg ++ ". Here\x27s the relevant context:") := by
  refine ⟨?_, ?_, ?_, ?_⟩
  · cases openai with
    | none => rfl
    | some p =>
      cases h : p question context <;> simp [generateAnswer, h]
  · rintro rfl
    rfl
  · rintro p content rfl hok
    simp [generateAnswer, hok]
  · rintro p msg rfl herr
    simp [generateAnswer, herr]

/-- Witness for C8: the three cases at concrete inputs. -/
theorem generateAnswer_preserves_context_witness :
    (generateAnswer none "q" "ctx").context = "ctx"
      ∧ (generateAnswer none "q" "ctx").answer =
          "AI synthesis unavailable (no OPENAI_API_KEY). Here\x27s the relevant context:"
      ∧ (generateAnswer (some (fun _ _ => Except.error "rate limit")) "q" "ctx").answer =
          "AI error: " ++ "rate limit" ++ ". Here\x27s the relevant context:" :=
  ⟨(generateAnswer_preserves_context none "q" "ctx").1,
   (generateAnswer_preserves_context none "q" "ctx").2.1 rfl,
   (generateAnswer_preserves_context (some (fun _ _ => Except.error "rate limit")) "q" "ctx").2.2.2
      (fun _ _ => Except.error "rate limit") "rate limit" rfl rfl⟩

/-! ## Claim C6: parallel-arrays invariant -/

/-- C6.  The invariant `len(documents) == len(embeddings)` holds in every
reachable state: it holds in the initial state, is preserved by
`addDocument` and by `clear` (and `search` does not mutate the store at all —
in this pure model it only reads it), and after `addDocument(d, e)` the new
pair is retrievable at the shared last index, with both appends performed in
the one logical operation `addDocument`. -/
theorem vectorStore_parallel_invariant {α : Type} (st : VectorStore α) (d : α)
    (e : List ℝ) (hinv : st.documents.length = st.embeddings.length) :
    ((VectorStore.empty α).documents.length = (VectorStore.empty α).embeddings.length)
      ∧ (st.addDocument d e).documents.length = (st.addDocument d e).embeddings.length
      ∧ (st.addDocument d e).documents[st.documents.length]? = some d
      ∧ (st.addDocument d e).embeddings[st.documents.length]? = some e
      ∧ (st.addDocument d e).documents.length = st.documents.length + 1
      ∧ st.clear.documents.length = st.clear.embeddings.length := by
  refine ⟨rfl, ?_, ?_, ?_, ?_, rfl⟩
  · simp [VectorStore.addDocument, hinv]
  · simp [VectorStore.addDocument]
  · rw [hinv]
    simp [VectorStore.addDocument]
  · simp [VectorStore.addDocument]

/-- Witness for C6 at a concrete store satisfying the invariant. -/
theorem vectorStore_parallel_invariant_witness :
    ((⟨["a"], [[1]]⟩ : VectorStore String).addDocument "b" [2]).documents[1]? = some "b"
      ∧ ((⟨["a"], [[1]]⟩ : VectorStore String).addDocument "b" [2]).embeddings[1]? =
          some [2] :=
  ⟨(vectorStore_parallel_invariant (⟨["a"], [[1]]⟩ : VectorStore String) "b" [2] rfl).2.2.1,
   (vectorStore_parallel_invariant (⟨["a"], [[1]]⟩ : VectorStore String) "b" [2] rfl).2.2.2.1⟩

/-! ## Claim C7: lazy, once-only indexing -/

/-- C7.  Every tool call first runs `ensureIndexed`; `ensureIndexed` performs
`indexServices` and `indexDocs` only while `isIndexed` is false and then sets
the flag, so once indexing has completed the state is a fixed point: a later
call leaves both stores and the flag untouched. -/
theorem ensureIndexed_once {α : Type} (svcItems docItems : List (α × List ℝ))
    (st : ServerState α) :
    handleToolCall svcItems docItems st = ensureIndexed svcItems docItems st
      ∧ (ensureIndexed svcItems docItems st).isIndexed = true
      ∧ (st.isIndexed = true → ensureIndexed svcItems docItems st = st)
      ∧ ensureIndexed svcItems docItems (ensureIndexed svcItems docItems st) =
          ensureIndexed svcItems docItems st
      ∧ (st.isIndexed = false → ensureIndexed svcItems docItems st =
          { indexDocs docItems (indexServices svcItems st) with isIndexed := true }) := by
  have hflag : (ensureIndexed svcItems docItems st).isIndexed = true := by
    rw [ensureIndexed]
    cases h : st.isIndexed with
    | true => simp [h]
    | false => simp [h]
  refine ⟨rfl, hflag, ?_, ?_, ?_⟩
  · intro h
    simp [ensureIndexed, h]
  · rw [ensureIndexed, if_pos hflag]
  · intro h
    simp [ensureIndexed, h]

/-- Witness for C7: starting from a fresh (unindexed) state, one call indexes
and sets the flag, and a second call is the identity. -/
theorem ensureIndexed_once_witness :
    (ensureIndexed [("svc", [1])] [("doc", [2])]
        (⟨VectorStore.empty String, VectorStore.empty String, false⟩ : ServerState String)
      = { indexDocs [("doc", [2])] (indexServices [("svc", [1])]
            ⟨VectorStore.empty String, VectorStore.empty String, false⟩) with
          isIndexed := true })
      ∧ (ensureIndexed [("svc", [1])] [("doc", [2])]
          (⟨⟨["s"], [[1]]⟩, ⟨["d"], [[2]]⟩, true⟩ : ServerState String)
        = ⟨⟨["s"], [[1]]⟩, ⟨["d"], [[2]]⟩, true⟩) :=
  ⟨(ensureIndexed_once [("svc", [1])] [("doc", [2])]
      ⟨VectorStore.empty String, VectorStore.empty String, false⟩).2.2.2.2 rfl,
   (ensureIndexed_once [("svc", [1])] [("doc", [2])]
      (⟨⟨["s"], [[1]]⟩, ⟨["d"], [[2]]⟩, true⟩ : ServerState String)).2.2.1 rfl⟩

/-! ## Helper lemmas about the counts array -/

theorem wordHash_lt (word : String) {dimensions : ℕ} (hd : 0 < dimensions) :
    wordHash word dimensions < dimensions := by
  rw [wordHash]
  generalize word.data = l
  induction l using List.reverseRecOn with
  | nil => simpa using hd
  | append_singleton xs x _ =>
    rw [List.foldl_append, List.foldl_cons, List.foldl_nil]
    exact Nat.mod_lt _ hd

theorem bump_length (e : List ℕ) (i : ℕ) : (bump e i).length = e.length := by
  simp [bump]

theorem foldl_bump_length (ws : List String) (e : List ℕ) (d : ℕ) :
    (ws.foldl (fun e w => bump e (wordHash w d)) e).length = e.length := by
  induction ws generalizing e with
  | nil => rfl
  | cons w ws ih => rw [List.foldl_cons, ih, bump_length]

theorem rawCounts_length (text : String) (d : ℕ) : (rawCounts text d).length = d := by
  rw [rawCounts, foldl_bump_length, List.length_replicate]

theorem getD_set_self_nat (e : List ℕ) (i x : ℕ) (h : i < e.length) :
    (e.set i x).getD i 0 = x := by
  rw [List.getD_eq_getElem?_getD, List.getElem?_set_self h]
  rfl

theorem getD_set_ne_nat (e : List ℕ) (i j x : ℕ) (hne : i ≠ j) :
    (e.set i x).getD j 0 = e.getD j 0 := by
  rw [List.getD_eq_getElem?_getD, List.getElem?_set_ne hne, ← List.getD_eq_getElem?_getD]

theorem getD_bump_le (e : List ℕ) (i j : ℕ) : e.getD j 0 ≤ (bump e i).getD j 0 := by
  rcases eq_or_ne i j with rfl | hne
  · by_cases h : i < e.length
    · rw [bump, getD_set_self_nat e i _ h]
      omega
    · rw [bump, List.set_eq_of_length_le (le_of_not_lt h)]
  · rw [bump, getD_set_ne_nat e i j _ hne]

theorem getD_bump_self (e : List ℕ) (i : ℕ) (h : i < e.length) :
    (bump e i).getD i 0 = e.getD i 0 + 1 := by
  rw [bump, getD_set_self_nat e i _ h]

theorem getD_foldl_bump_le (ws : List String) (e : List ℕ) (d j : ℕ) :
    e.getD j 0 ≤ (ws.foldl (fun e w => bump e (wordHash w d)) e).getD j 0 := by
  induction ws generalizing e with
  | nil => exact le_refl _
  | cons w ws ih =>
    rw [List.foldl_cons]
    exact le_trans (getD_bump_le e (wordHash w d) j) (ih _)

/-! ## Claim C10: hashes are in range and the vector is well-formed -/

/-- C10.  For every input text at the default 256 dimensions, every per-token
hash lies below 256 — and since the counts array always has length 256, the
increment `embedding[hash] += 1` is an in-bounds write — and the returned
vector has exactly 256 entries, each non-negative. -/
theorem simpleEmbedding_wellformed (text : String) :
    (∀ w ∈ tokenize text, wordHash w 256 < 256)
      ∧ (rawCounts text 256).length = 256
      ∧ (simpleEmbedding text).length = 256
      ∧ (∀ x ∈ simpleEmbedding text, 0 ≤ x) := by
  refine ⟨fun w _ => wordHash_lt w (by norm_num), rawCounts_length text 256, ?_, ?_⟩
  · simp only [simpleEmbedding, List.length_map]
    exact rawCounts_length text 256
  · intro x hx
    simp only [simpleEmbedding, List.map_map, List.mem_map, Function.comp] at hx
    obtain ⟨n, _, rfl⟩ := hx
    have hnorm : 0 < jsNormOr1 (sumSq ((rawCounts text 256).map (fun n : ℕ => (n : ℝ)))) := by
      rw [jsNormOr1]
      split
      · norm_num
      · rename_i h
        exact lt_of_le_of_ne (Real.sqrt_nonneg _) (Ne.symm h)
    exact div_nonneg (Nat.cast_nonneg n) (le_of_lt hnorm)

/-- Witness for C10 at a concrete text. -/
theorem simpleEmbedding_wellformed_witness :
    wordHash "webhook" 256 < 256 ∧ (simpleEmbedding "webhook events").length = 256 :=
  ⟨(simpleEmbedding_wellformed "webhook events").1 "webhook" (by decide),
   (simpleEmbedding_wellformed "webhook events").2.2.1⟩

/-! ## Claim C5: the fallback embedder is a bag-of-tokens model -/

theorem bump_comm (e : List ℕ) (i j : ℕ) : bump (bump e i) j = bump (bump e j) i := by
  rcases eq_or_ne i j with rfl | hne
  · rfl
  · have hgj : (bump e i).getD j 0 = e.getD j 0 := by
      rw [bump, List.getD_eq_getElem?_getD, List.getElem?_set_ne hne,
        ← List.getD_eq_getElem?_getD]
    have hgi : (bump e j).getD i 0 = e.getD i 0 := by
      rw [bump, List.getD_eq_getElem?_getD, List.getElem?_set_ne hne.symm,
        ← List.getD_eq_getElem?_getD]
    rw [bump, hgj, bump, bump, hgi, bump, List.set_comm _ _ _ hne]

/-- C5.  Texts with the same multiset of surviving tokens embed identically:
`simpleEmbedding` factors through the *bag* of tokens (for any
dimensionality, in particular the default 256). -/
theorem simpleEmbedding_bag_model (t₁ t₂ : String) (d : ℕ)
    (hperm : (tokenize t₁).Perm (tokenize t₂)) :
    simpleEmbedding t₁ d = simpleEmbedding t₂ d := by
  have hcounts : rawCounts t₁ d = rawCounts t₂ d := by
    rw [rawCounts, rawCounts]
    exact @List.Perm.foldl_eq _ _ (fun e w => bump e (wordHash w d)) _ _
      ⟨fun e w₁ w₂ => bump_comm e (wordHash w₁ d) (wordHash w₂ d)⟩ hperm _
  rw [simpleEmbedding, simpleEmbedding, hcounts]

/-- Witness for C5: the two texts named by the specification scenario embed
to the identical vector. -/
theorem simpleEmbedding_bag_model_witness :
    simpleEmbedding "participant authentication token" 256 =
      simpleEmbedding "authentication token participant" 256 :=
  simpleEmbedding_bag_model "participant authentication token"
    "authentication token participant" 256 (by decide)

/-! ## Claim C3: unit norm on non-empty token lists, zero vector otherwise -/

theorem sumSq_map_div (v : List ℝ) (n : ℝ) :
    sumSq (v.map (fun x => x / n)) = sumSq v / n ^ 2 := by
  rw [sumSq_eq_sum_sq, sumSq_eq_sum_sq, List.map_map]
  have : ((fun x => x ^ 2) ∘ fun x => x / n) = fun x => x ^ 2 * (1 / n ^ 2) := by
    funext x
    field_simp
  rw [this, List.sum_map_mul_right]
  ring

theorem sumSq_cast_pos_of_token (text : String) (hne : tokenize text ≠ []) :
    0 < sumSq ((rawCounts text 256).map (fun n : ℕ => (n : ℝ))) := by
  obtain ⟨w, ws, hws⟩ := List.exists_cons_of_ne_nil hne
  have hhlt : wordHash w 256 < 256 := wordHash_lt w (by norm_num)
  -- the head token deposits a count at its hash; later tokens never decrease it
  have hone : 1 ≤ (rawCounts text 256).getD (wordHash w 256) 0 := by
    rw [rawCounts, hws, List.foldl_cons]
    refine le_trans ?_ (getD_foldl_bump_le ws _ 256 (wordHash w 256))
    rw [getD_bump_self _ _ (by rw [List.length_replicate]; exact hhlt)]
    omega
  have hlen : wordHash w 256 < (rawCounts text 256).length := by
    rwa [rawCounts_length]
  have hmem : (rawCounts text 256).getD (wordHash w 256) 0 ∈ rawCounts text 256 := by
    rw [List.getD_eq_getElem _ _ hlen]
    exact List.getElem_mem hlen
  have hmem2 : ((rawCounts text 256).getD (wordHash w 256) 0 : ℝ) ∈
      (rawCounts text 256).map (fun n : ℕ => (n : ℝ)) :=
    List.mem_map.mpr ⟨(rawCounts text 256).getD (wordHash w 256) 0, hmem, rfl⟩
  have hnz : sumSq ((rawCounts text 256).map (fun n : ℕ => (n : ℝ))) ≠ 0 := by
    intro h0
    have hz := (sumSq_eq_zero_iff _).mp h0 _ hmem2
    have : (rawCounts text 256).getD (wordHash w 256) 0 = 0 := by
      exact_mod_cast hz
    omega
  exact lt_of_le_of_ne (sumSq_nonneg _) (Ne.symm hnz)

/-- C3.  At the default 256 dimensions: for every text with a non-empty
surviving-token list the fallback embedding has Euclidean norm exactly 1 (the
floating-point claim, idealised to exact real arithmetic), and for every text
with no surviving tokens it is the all-zero vector of length 256. -/
theorem simpleEmbedding_normalized (text : String) :
    (tokenize text ≠ [] → specNorm (simpleEmbedding text) = 1)
      ∧ (tokenize text = [] → simpleEmbedding text = List.replicate 256 0) := by
  constructor
  · intro hne
    have hpos : 0 < sumSq ((rawCounts text 256).map (fun n : ℕ => (n : ℝ))) :=
      sumSq_cast_pos_of_token text hne
    have hsq : 0 < Real.sqrt (sumSq ((rawCounts text 256).map (fun n : ℕ => (n : ℝ)))) :=
      Real.sqrt_pos_of_pos hpos
    have hnorm : jsNormOr1 (sumSq ((rawCounts text 256).map (fun n : ℕ => (n : ℝ)))) =
        Real.sqrt (sumSq ((rawCounts text 256).map (fun n : ℕ => (n : ℝ)))) := by
      rw [jsNormOr1, if_neg (ne_of_gt hsq)]
    rw [← sqrt_sumSq_eq_specNorm]
    simp only [simpleEmbedding, hnorm]
    rw [sumSq_map_div, Real.sq_sqrt (le_of_lt hpos), div_self (ne_of_gt hpos),
      Real.sqrt_one]
  · intro hnil
    have hcounts : rawCounts text 256 = List.replicate 256 0 := by
      rw [rawCounts, hnil, List.foldl_nil]
    have hmap : (rawCounts text 256).map (fun n : ℕ => (n : ℝ)) =
        List.replicate 256 (0 : ℝ) := by
      rw [hcounts, List.map_replicate, Nat.cast_zero]
    simp only [simpleEmbedding, hmap, List.map_replicate, zero_div]

/-- Witness for C3: a text with surviving tokens has a unit-norm embedding,
and a text whose tokens are all discarded embeds to the zero vector. -/
theorem simpleEmbedding_normalized_witness :
    specNorm (simpleEmbedding "participant authentication token") = 1
      ∧ simpleEmbedding "a b" = List.replicate 256 0 :=
  ⟨(simpleEmbedding_normalized "participant authentication token").1 (by decide),
   (simpleEmbedding_normalized "a b").2 (by decide)⟩

/-! ## Helper lemmas about the stable descending sort -/

theorem insertDesc_perm (x : ℕ × ℝ) (l : List (ℕ × ℝ)) :
    (insertDesc x l).Perm (x :: l) := by
  induction l with
  | nil => exact List.Perm.refl _
  | cons y ys ih =>
    rw [insertDesc]
    split
    · exact (ih.cons y).trans (List.Perm.swap x y ys)
    · exact List.Perm.refl _

theorem sortDesc_perm (l : List (ℕ × ℝ)) : (sortDesc l).Perm l := by
  induction l with
  | nil => exact List.Perm.refl _
  | cons x xs ih =>
    rw [sortDesc, List.foldr_cons]
    exact ((insertDesc_perm x _).trans (ih.cons x))

theorem pairwise_insertDesc (x : ℕ × ℝ) (l : List (ℕ × ℝ))
    (hl : l.Pairwise (fun p q => q.2 ≤ p.2 ∧ (p.2 = q.2 → p.1 < q.1)))
    (hidx : ∀ z ∈ l, x.1 < z.1) :
    (insertDesc x l).Pairwise (fun p q => q.2 ≤ p.2 ∧ (p.2 = q.2 → p.1 < q.1)) := by
  induction l with
  | nil => simp [insertDesc]
  | cons y ys ih =>
    rw [insertDesc]
    rcases List.pairwise_cons.mp hl with ⟨hy, hys⟩
    split
    · rename_i hgt
      refine List.pairwise_cons.mpr
        ⟨?_, ih hys (fun z hz => hidx z (List.mem_cons_of_mem y hz))⟩
      intro z hz
      rcases List.mem_cons.mp ((insertDesc_perm x ys).mem_iff.mp hz) with rfl | hz'
      · exact ⟨le_of_lt hgt, fun h => absurd h (ne_of_gt hgt)⟩
      · exact hy z hz'
    · rename_i hle
      refine List.pairwise_cons.mpr ⟨?_, hl⟩
      intro z hz
      rcases List.mem_cons.mp hz with rfl | hz'
      · exact ⟨le_of_not_lt hle, fun _ => hidx z (List.mem_cons_self z ys)⟩
      · exact ⟨le_trans (hy z hz').1 (le_of_not_lt hle),
          fun _ => hidx z (List.mem_cons_of_mem y hz')⟩

theorem pairwise_sortDesc (l : List (ℕ × ℝ))
    (hl : l.Pairwise (fun p q => p.1 < q.1)) :
    (sortDesc l).Pairwise (fun p q => q.2 ≤ p.2 ∧ (p.2 = q.2 → p.1 < q.1)) := by
  induction l with
  | nil => simp [sortDesc]
  | cons x xs ih =>
    rcases List.pairwise_cons.mp hl with ⟨hx, hxs⟩
    rw [sortDesc, List.foldr_cons]
    exact pairwise_insertDesc x _ (ih hxs)
      (fun z hz => hx z ((sortDesc_perm xs).mem_iff.mp hz))

theorem pairwise_fst_lt_enumFrom {α : Type} (n : ℕ) (l : List α) :
    (List.enumFrom n l).Pairwise (fun p q => p.1 < q.1) := by
  induction l generalizing n with
  | nil => simp
  | cons x xs ih =>
    rw [List.enumFrom_cons]
    refine List.pairwise_cons.mpr ⟨?_, ih (n + 1)⟩
    rintro ⟨i, a⟩ hz
    have := (List.mem_enumFrom hz).1
    simpa using this

theorem pairwise_fst_lt_enum {α : Type} (l : List α) :
    l.enum.Pairwise (fun p q => p.1 < q.1) := by
  rw [List.enum_eq_enumFrom]
  exact pairwise_fst_lt_enumFrom 0 l

theorem mem_sortDesc_enum (scores : List ℝ) (p : ℕ × ℝ)
    (hp : p ∈ sortDesc scores.enum) :
    p.1 < scores.length ∧ scores.getD p.1 0 = p.2 := by
  have hmem : p ∈ scores.enum := (sortDesc_perm _).mem_iff.mp hp
  have hget : scores[p.1]? = some p.2 := List.mem_enum_iff_getElem?.mp hmem
  refine ⟨(List.getElem?_eq_some_iff.mp hget).1, ?_⟩
  rw [List.getD_eq_getElem?_getD, hget]
  rfl

theorem mapM_id_some : ∀ {l : List (Option ℝ)} {s : List ℝ},
    l.mapM id = some s → l = s.map some := by
  intro l
  induction l with
  | nil =>
    intro s h
    rw [List.mapM_nil] at h
    cases h
    rfl
  | cons x xs ih =>
    intro s h
    rw [List.mapM_cons] at h
    cases x with
    | none => simp at h
    | some y =>
      cases hxs : xs.mapM id with
      | none => rw [hxs] at h; simp at h
      | some ys =>
        rw [hxs] at h
        simp at h
        rw [← h, List.map_cons, ih hxs]

/-! ## Claim C1: search is a stable descending top-K ranking -/

/-- C1 (amended).  Whenever every cosine-similarity score the search computes
is a finite number (no `NaN`, i.e. the `mapM` of the score computation is
`some scores`), `search(q, topK)` on a store satisfying the parallel-arrays
invariant returns exactly the documents at positions `rankedIdxs scores topK`
paired with their scores; that index list has length
`min(topK, storeSize)`, is ordered by non-increasing score, breaks all score
ties in ascending insertion order (stable sort), and mentions only valid
store positions.  (Without the no-`NaN` hypothesis the claim fails: see the
counterexample, where the comparator is inconsistent and ECMA-262 guarantees
no particular order.) -/
theorem search_ranked {α : Type} [Inhabited α] (st : VectorStore α) (q : List ℝ)
    (k : ℕ) (scores : List ℝ)
    (hlen : st.documents.length = st.embeddings.length)
    (hdef : (st.embeddings.map (VectorStore.cosineSimilarity q)).mapM id = some scores) :
    st.search q k = some ((rankedIdxs scores k).map
        (fun i => (st.documents.getD i default, scores.getD i 0)))
      ∧ (rankedIdxs scores k).length = min k st.documents.length
      ∧ (rankedIdxs scores k).Pairwise (fun i j =>
          scores.getD j 0 ≤ scores.getD i 0 ∧ (scores.getD i 0 = scores.getD j 0 → i < j))
      ∧ (∀ i ∈ rankedIdxs scores k, i < st.embeddings.length) := by
  have hscorelen : scores.length = st.embeddings.length := by
    have h1 := congrArg List.length (mapM_id_some hdef)
    simpa using h1.symm
  have hsortlen : (sortDesc scores.enum).length = scores.length := by
    rw [(sortDesc_perm scores.enum).length_eq, List.enum_length]
  have hmemfacts : ∀ p ∈ (sortDesc scores.enum).take k,
      p.1 < scores.length ∧ scores.getD p.1 0 = p.2 :=
    fun p hp => mem_sortDesc_enum scores p (List.mem_of_mem_take hp)
  refine ⟨?_, ?_, ?_, ?_⟩
  · rw [VectorStore.search]
    by_cases h0 : st.embeddings.length = 0
    · have hemb : st.embeddings = [] := List.length_eq_zero.mp h0
      have hsc : scores = [] := by
        have := hscorelen
        rw [h0] at this
        exact List.length_eq_zero.mp this
      rw [if_pos h0, hsc]
      simp [rankedIdxs, sortDesc]
    · rw [if_neg h0, hdef]
      rw [rankedIdxs, List.map_map]
      refine congrArg some (List.map_congr_left ?_).symm
      intro p hp
      have := (hmemfacts p hp).2
      simp only [Function.comp_apply]
      rw [this]
  · rw [rankedIdxs, List.length_map, List.length_take, hsortlen, hscorelen, hlen]
  · rw [rankedIdxs]
    have hsorted := pairwise_sortDesc scores.enum (pairwise_fst_lt_enum scores)
    have htake := hsorted.sublist (List.take_sublist k _)
    rw [List.pairwise_map]
    refine htake.imp_of_mem ?_
    intro p q hp hq hpq
    rw [(hmemfacts p hp).2, (hmemfacts q hq).2]
    exact hpq
  · intro i hi
    rw [rankedIdxs] at hi
    obtain ⟨p, hp, rfl⟩ := List.mem_map.mp hi
    rw [← hscorelen]
    exact (hmemfacts p hp).1

/-- Witness for C1 at a concrete store with a score tie: both stored vectors
score `1` against the query, and the ranking keeps their insertion order. -/
theorem search_ranked_witness :
    (⟨["a", "b"], [[1], [1]]⟩ : VectorStore String).search [1] 5 =
        some ((rankedIdxs [1, 1] 5).map
          (fun i => ((⟨["a", "b"], [[1], [1]]⟩ : VectorStore String).documents.getD i default,
            ([(1 : ℝ), 1]).getD i 0)))
      ∧ (rankedIdxs [(1 : ℝ), 1] 5).length =
          min 5 (⟨["a", "b"], [[1], [1]]⟩ : VectorStore String).documents.length :=
  ⟨(search_ranked (⟨["a", "b"], [[1], [1]]⟩ : VectorStore String) [1] 5 [1, 1] rfl
      (by
        have h1 : VectorStore.cosineSimilarity [(1 : ℝ)] [(1 : ℝ)] = some 1 := by
          norm_num [VectorStore.cosineSimilarity, sumSq, jsDiv, Real.sqrt_one]
        show (List.map (VectorStore.cosineSimilarity [1]) [[1], [1]]).mapM id = some [1, 1]
        rw [List.map_cons, List.map_cons, List.map_nil, h1]
        rfl)).1,
   (search_ranked (⟨["a", "b"], [[1], [1]]⟩ : VectorStore String) [1] 5 [1, 1] rfl
      (by
        have h1 : VectorStore.cosineSimilarity [(1 : ℝ)] [(1 : ℝ)] = some 1 := by
          norm_num [VectorStore.cosineSimilarity, sumSq, jsDiv, Real.sqrt_one]
        show (List.map (VectorStore.cosineSimilarity [1]) [[1], [1]]).mapM id = some [1, 1]
        rw [List.map_cons, List.map_cons, List.map_nil, h1]
        rfl)).2.1⟩

/-- Counterexample to C1 as stated universally: a store holding the zero
vector makes one comparator input `NaN` (`0/0`), the comparator is then
inconsistent, and ECMA-262 leaves the sort order implementation-defined — no
ordered result list is guaranteed, which the model renders as `none`.  So
"for every store state and every query embedding" the claimed ordered result
does not exist; the no-`NaN` proviso of the amended claim is necessary. -/
theorem search_nan_counterexample :
    (⟨["a", "b"], [[1], [0]]⟩ : VectorStore String).search [1] 5 = none := by
  have h1 : VectorStore.cosineSimilarity [(1 : ℝ)] [(1 : ℝ)] = some 1 := by
    norm_num [VectorStore.cosineSimilarity, sumSq, jsDiv, Real.sqrt_one]
  have h0 : VectorStore.cosineSimilarity [(1 : ℝ)] [(0 : ℝ)] = none := by
    norm_num [VectorStore.cosineSimilarity, sumSq, jsDiv, Real.sqrt_one, Real.sqrt_zero]
  have hmap : (List.map (VectorStore.cosineSimilarity [1])
      ([[(1 : ℝ)], [0]] : List (List ℝ))).mapM id = none := by
    rw [List.map_cons, List.map_cons, List.map_nil, h1, h0]
    rfl
  rw [VectorStore.search, if_neg (by norm_num), hmap]

end AdrContext
